import Mathlib

/-!
Shallow embedding of the CRM synchronization pipeline: the LeadConnector
connector (invoice fetching and limit/offset pagination), the in-memory
TTL cache, the invoice/owner enrichment service, the payment-type joiner
and the date-formatting utilities, together with theorems about the
spec's testable properties. JavaScript strings are modelled as `String`
with `""` standing for the falsy absent value where the code collapses
the two via `x || ""`; genuinely nullable fields are `Option`; `Date`
parsing (`new Date(s).getTime()`, `NaN` on failure) is an explicit
parameter `parseMs : String → Option Int`; `Date.now()` is an explicit
`nowMs` argument.
-/

namespace CRM

/-- JavaScript `a || b` on strings: the empty string is falsy. -/
def jsOr (a b : String) : String := if a = "" then b else a

@[simp] theorem jsOr_empty (s : String) : jsOr s "" = s := by
  unfold jsOr
  split <;> simp_all

/-- JavaScript `a || b` where `a` is a possibly-absent number: both
`undefined` and `0` are falsy. -/
def jsOrInt (a : Option Int) (b : Int) : Int :=
  match a with
  | some n => if n = 0 then b else n
  | none => b

/-- JavaScript `s || null` on a nullable string: `null`, `undefined` and
`""` all collapse to `null`. -/
def jsOrNull (x : Option String) : Option String :=
  match x with
  | some s => if s = "" then none else some s
  | none => none

/-- JavaScript `String.prototype.toLowerCase` on the character data. -/
def toLowerStr (s : String) : String := ⟨s.data.map Char.toLower⟩

/-- JavaScript `String.prototype.trim`: strip whitespace at both ends. -/
def trimStr (s : String) : String :=
  ⟨((s.data.dropWhile Char.isWhitespace).reverse.dropWhile Char.isWhitespace).reverse⟩

/-- Lexicographic comparison of character lists, the order JavaScript
`Array.prototype.sort()` applies to strings by default. -/
def lexLeb : List Char → List Char → Bool
  | [], _ => true
  | _ :: _, [] => false
  | a :: as, b :: bs => if a < b then true else if b < a then false else lexLeb as bs

/-- The default-sort string order as a proposition. -/
def strLe (a b : String) : Prop := lexLeb a.data b.data = true

instance : DecidableRel strLe := fun a b => by
  unfold strLe
  infer_instance

theorem lexLeb_cons (a b : Char) (as bs : List Char) :
    lexLeb (a :: as) (b :: bs) = true ↔ (a < b ∨ (a = b ∧ lexLeb as bs = true)) := by
  simp only [lexLeb]
  rcases lt_trichotomy a b with h | h | h
  · simp [h]
  · subst h
    simp [lt_irrefl]
  · simp [lt_asymm h, h, ne_of_gt h]

theorem lexLeb_total : ∀ as bs : List Char, lexLeb as bs = true ∨ lexLeb bs as = true := by
  intro as
  induction as with
  | nil => intro bs; left; rfl
  | cons a as ih =>
    intro bs
    cases bs with
    | nil => right; rfl
    | cons b bs =>
      rw [lexLeb_cons, lexLeb_cons]
      rcases lt_trichotomy a b with h | h | h
      · left; left; exact h
      · subst h
        rcases ih bs with h2 | h2
        · left; right; exact ⟨rfl, h2⟩
        · right; right; exact ⟨rfl, h2⟩
      · right; left; exact h

theorem lexLeb_trans : ∀ as bs cs : List Char,
    lexLeb as bs = true → lexLeb bs cs = true → lexLeb as cs = true := by
  intro as
  induction as with
  | nil => intro bs cs _ _; rfl
  | cons a as ih =>
    intro bs cs h1 h2
    cases bs with
    | nil => simp [lexLeb] at h1
    | cons b bs =>
      cases cs with
      | nil => simp [lexLeb] at h2
      | cons c cs =>
        rw [lexLeb_cons] at h1 h2 ⊢
        rcases h1 with h1 | ⟨h1e, h1t⟩
        · rcases h2 with h2 | ⟨h2e, h2t⟩
          · left; exact lt_trans h1 h2
          · left; exact h2e ▸ h1
        · rcases h2 with h2 | ⟨h2e, h2t⟩
          · left; exact h1e ▸ h2
          · right; exact ⟨h1e.trans h2e, ih bs cs h1t h2t⟩

instance : IsTotal String strLe := ⟨fun a b => lexLeb_total a.data b.data⟩

instance : IsTrans String strLe := ⟨fun a b c => lexLeb_trans a.data b.data c.data⟩

/-- JavaScript `Array.prototype.sort()` on strings, modelled as an
insertion sort under the default lexicographic comparison. -/
def sortStrings (l : List String) : List String := l.insertionSort strLe

/-- JavaScript `arr.join(" + ")`. -/
def joinedSorted (l : List String) : String := String.intercalate " + " (sortStrings l)

/-! ## Date utilities (`src/utils/date.ts`) -/

/-- JavaScript `String(n).padStart(2, "0")`. -/
def pad2 (n : Int) : String :=
  let s := toString n
  if s.length ≥ 2 then s else "0" ++ s

/-- Civil calendar date (year, month, day) of a day count relative to
1970-01-01: the proleptic-Gregorian arithmetic behind the JavaScript
`Date.getUTCFullYear`, `getUTCMonth` and `getUTCDate` accessors. -/
def civilFromDays (z0 : Int) : Int × Int × Int :=
  let z := z0 + 719468
  let era := z.fdiv 146097
  let doe := z - era * 146097
  let yoe := (doe - doe.fdiv 1460 + doe.fdiv 36524 - doe.fdiv 146096).fdiv 365
  let y := yoe + era * 400
  let doy := doe - (365 * yoe + yoe.fdiv 4 - yoe.fdiv 100)
  let mp := (5 * doy + 2).fdiv 153
  let d := doy - (153 * mp + 2).fdiv 5 + 1
  let m := if mp < 10 then mp + 3 else mp - 9
  (if m ≤ 2 then y + 1 else y, m, d)

/-- The `MM/dd/yyyy` rendering of the UTC calendar components of an epoch
millisecond timestamp (the body of `fmtDateMDY` after the `new Date`
construction). -/
def renderMDY (ms : Int) : String :=
  let p := civilFromDays (ms.fdiv 86400000)
  pad2 p.2.1 ++ "/" ++ pad2 p.2.2 ++ "/" ++ toString p.1

/-- The input type of `fmtDateMDY`: `string | number | null | undefined`
(`dnull` covers both `null` and `undefined`). -/
inductive DateInput where
  | dstr (s : String)
  | dnum (n : Int)
  | dnull
deriving Repr, DecidableEq

/-- The `fmtDateMDY(isoStringOrMs, timezone)` utility: empty output for
`null`/`undefined`/`""`, otherwise the `MM/dd/yyyy` rendering of the
timestamp's UTC calendar components; an unparseable string (a `NaN`
date) renders as `"NaN/NaN/NaN"`. The `timezone` parameter is accepted
but never consulted, exactly as in the source. -/
def fmtDateMDY (parseMs : String → Option Int) (x : DateInput) (timezone : String) : String :=
  match x with
  | DateInput.dnull => ""
  | DateInput.dnum n => renderMDY n
  | DateInput.dstr s =>
    if s = "" then ""
    else
      match parseMs s with
      | some ms => renderMDY ms
      | none => "NaN/NaN/NaN"

/-- C10: for every input and any two timezone arguments, `fmtDateMDY`
returns the same string — the timezone parameter has no effect and the
output is the UTC-component rendering; moreover the function is total,
mapping `null`/`undefined` and the empty string to `""`. -/
theorem fmtDateMDY_spec (parseMs : String → Option Int) (x : DateInput) (tz1 tz2 : String) :
    fmtDateMDY parseMs x tz1 = fmtDateMDY parseMs x tz2
    ∧ fmtDateMDY parseMs DateInput.dnull tz1 = ""
    ∧ fmtDateMDY parseMs (DateInput.dstr "") tz1 = ""
    ∧ (∀ n : Int, fmtDateMDY parseMs (DateInput.dnum n) tz1 = renderMDY n) := by
  refine ⟨?_, rfl, by simp [fmtDateMDY], fun n => rfl⟩
  cases x <;> rfl

/-! ## In-memory TTL cache (`src/utils/cache.ts`) -/

/-- One entry of the in-memory cache: the stored value and its absolute
expiry time in epoch milliseconds. -/
structure CacheEntry (α : Type) where
  value : α
  expiresAt : Int
deriving Repr, DecidableEq

/-- The process-wide `InMemoryCache`, embedded as an association list
from string keys to entries. -/
structure InMemoryCache (α : Type) where
  store : List (String × CacheEntry α)
deriving Repr, DecidableEq

/-- A fresh cache, as constructed at module load. -/
def emptyCache (α : Type) : InMemoryCache α := ⟨[]⟩

/-- `InMemoryCache.set(key, value, ttlSeconds)` at current time `nowMs`:
the entry expires at `nowMs + ttlSeconds * 1000`. -/
def cacheSet (c : InMemoryCache α) (key : String) (v : α) (ttlSeconds nowMs : Int) :
    InMemoryCache α :=
  ⟨(key, ⟨v, nowMs + ttlSeconds * 1000⟩) :: c.store.filter (fun kv => kv.1 != key)⟩

/-- `InMemoryCache.get(key)` at current time `nowMs`: a missing key gives
`none`; an entry whose expiry has passed (`now > expiresAt`) is deleted
and reported absent (lazy eviction on read); otherwise the stored value
is returned. Returns the result together with the updated cache. -/
def cacheGet (c : InMemoryCache α) (key : String) (nowMs : Int) :
    Option α × InMemoryCache α :=
  match c.store.lookup key with
  | none => (none, c)
  | some e =>
    if nowMs > e.expiresAt then
      (none, ⟨c.store.filter (fun kv => kv.1 != key)⟩)
    else
      (some e.value, c)

theorem lookup_filter_ne {β : Type} (k : String) :
    ∀ l : List (String × β), (l.filter (fun kv => kv.1 != k)).lookup k = none := by
  intro l
  induction l with
  | nil => rfl
  | cons kv rest ih =>
    by_cases hk : kv.1 = k
    · simpa [List.filter, hk] using ih
    · have hne : (kv.1 != k) = true := by simp [hk]
      have hne2 : (k == kv.1) = false := beq_eq_false_iff_ne.mpr (fun h => hk h.symm)
      simp [List.filter, hne, List.lookup, hne2, ih]

/-- C5: after `set(key, v, ttl)` at time `t0`, a `get` at time `t1`
returns `v` while less than `ttl` seconds have elapsed and is absent once
more than `ttl` seconds have elapsed; the expired `get` also removes the
entry, so any subsequent `get` of the key is absent as well. -/
theorem cache_ttl_spec (α : Type) (c : InMemoryCache α) (key : String) (v : α)
    (ttl t0 t1 : Int) :
    (t1 - t0 < ttl * 1000 → (cacheGet (cacheSet c key v ttl t0) key t1).1 = some v)
    ∧ (t1 - t0 > ttl * 1000 →
        (cacheGet (cacheSet c key v ttl t0) key t1).1 = none
        ∧ (cacheGet (cacheSet c key v ttl t0) key t1).2.store.lookup key = none
        ∧ ∀ t2 : Int, (cacheGet (cacheGet (cacheSet c key v ttl t0) key t1).2 key t2).1 = none) := by
  have hhead : (cacheSet c key v ttl t0).store.lookup key = some ⟨v, t0 + ttl * 1000⟩ := by
    simp [cacheSet, List.lookup]
  constructor
  · intro hfresh
    have hnotexp : ¬ (t1 > t0 + ttl * 1000) := by omega
    simp [cacheGet, hhead, hnotexp]
  · intro hstale
    have hexp : t1 > t0 + ttl * 1000 := by omega
    have hresult : (cacheGet (cacheSet c key v ttl t0) key t1)
        = (none, ⟨(cacheSet c key v ttl t0).store.filter (fun kv => kv.1 != key)⟩) := by
      simp [cacheGet, hhead, hexp]
    refine ⟨by rw [hresult], ?_, ?_⟩
    · rw [hresult]
      exact lookup_filter_ne key _
    · intro t2
      rw [hresult]
      simp [cacheGet, lookup_filter_ne key]

/-- Witness for C5 at a concrete cache, instantiating both the fresh and
the stale branch. -/
theorem cache_ttl_spec_witness :
    ((5000 : Int) - 0 < 10 * 1000
      ∧ (cacheGet (cacheSet (emptyCache Nat) "k" 1 10 0) "k" 5000).1 = some 1)
    ∧ ((20000 : Int) - 0 > 10 * 1000
      ∧ (cacheGet (cacheSet (emptyCache Nat) "k" 1 10 0) "k" 20000).1 = none) :=
  ⟨⟨by decide, (cache_ttl_spec Nat (emptyCache Nat) "k" 1 10 0 5000).1 (by decide)⟩,
   ⟨by decide, ((cache_ttl_spec Nat (emptyCache Nat) "k" 1 10 0 20000).2 (by decide)).1⟩⟩

/-! ## Rate-limited paginator (`LeadConnectorCRM.paginatedGet` and
`fetchAllInvoicesPaged`) -/

/-- The fixed page size of the connector (`const limit = 100`). -/
def pageLimit : Nat := 100

/-- The page a limit/offset backend holding `items` serves at a given
offset. -/
def fetchPage (items : List α) (offset : Nat) : List α :=
  (items.drop offset).take pageLimit

/-- The pagination loop of `paginatedGet`: fetch the page at `offset`,
append it, stop when a page holds strictly fewer than `pageLimit` items,
otherwise continue at `offset + pageLimit`. Returns the concatenation
together with the number of backend calls issued. -/
def paginatedGo (items : List α) (offset : Nat) : List α × Nat :=
  if h : (fetchPage items offset).length < pageLimit then
    (fetchPage items offset, 1)
  else
    let rest := paginatedGo items (offset + pageLimit)
    (fetchPage items offset ++ rest.1, rest.2 + 1)
termination_by items.length - offset
decreasing_by
  simp only [fetchPage, List.length_take, List.length_drop, pageLimit] at h ⊢
  omega

/-- `paginatedGet` started at offset 0, as the connector does. -/
def paginatedGet (items : List α) : List α × Nat := paginatedGo items 0

theorem paginatedGo_spec_aux {α : Type} (items : List α) :
    ∀ (n offset : Nat), items.length - offset ≤ n →
      (paginatedGo items offset).1 = items.drop offset
      ∧ (paginatedGo items offset).2 = (items.length - offset) / pageLimit + 1 := by
  intro n
  induction n with
  | zero =>
    intro offset hle
    rw [paginatedGo]
    have hlen : (fetchPage items offset).length < pageLimit := by
      simp only [fetchPage, List.length_take, List.length_drop, pageLimit]
      omega
    rw [dif_pos hlen]
    constructor
    · simp only [fetchPage]
      exact List.take_of_length_le (by simp [pageLimit]; omega)
    · simp only [pageLimit]
      omega
  | succ n ih =>
    intro offset hle
    rw [paginatedGo]
    by_cases hlen : (fetchPage items offset).length < pageLimit
    · rw [dif_pos hlen]
      simp only [fetchPage, List.length_take, List.length_drop, pageLimit] at hlen
      constructor
      · simp only [fetchPage]
        exact List.take_of_length_le (by simp [pageLimit]; omega)
      · simp only [pageLimit]
        omega
    · rw [dif_neg hlen]
      simp only [fetchPage, List.length_take, List.length_drop, pageLimit] at hlen
      have hrec := ih (offset + pageLimit) (by simp only [pageLimit]; omega)
      constructor
      · simp only [fetchPage]
        rw [hrec.1]
        have hdd : items.drop (offset + pageLimit) = (items.drop offset).drop pageLimit := by
          rw [List.drop_drop]
        rw [hdd, List.take_append_drop]
      · simp only [hrec.2]
        simp only [pageLimit] at *
        have h100 : 100 ≤ items.length - offset := by omega
        have hsplit : items.length - (offset + 100) = (items.length - offset) - 100 := by omega
        rw [hsplit]
        have hsub : items.length - offset = ((items.length - offset) - 100) + 100 := by omega
        rw [hsub.symm] at *
        omega

/-- C2: pagination over a backend holding `items` returns exactly the
backend's list (cardinality and relative order preserved) and issues
`ceil(N/P)` calls when `N` is not a multiple of the page size and
`ceil(N/P) + 1` calls (the final one an empty page) when it is. -/
theorem paginatedGet_spec (α : Type) (items : List α) :
    (paginatedGet items).1 = items
    ∧ (¬ (pageLimit ∣ items.length) →
        (paginatedGet items).2 = (items.length + (pageLimit - 1)) / pageLimit)
    ∧ (pageLimit ∣ items.length →
        (paginatedGet items).2 = items.length / pageLimit + 1) := by
  have haux := paginatedGo_spec_aux items items.length 0 (by omega)
  have hfst : (paginatedGet items).1 = items := by
    have := haux.1
    simpa [paginatedGet] using this
  have hsnd : (paginatedGet items).2 = items.length / pageLimit + 1 := by
    have := haux.2
    simpa [paginatedGet] using this
  refine ⟨hfst, ?_, fun _ => hsnd⟩
  intro hndvd
  rw [hsnd]
  simp only [pageLimit] at hndvd ⊢
  rw [Nat.add_div (by norm_num : 0 < 100)]
  have h2 : items.length % 100 ≠ 0 := fun hc => hndvd (Nat.dvd_of_mod_eq_zero hc)
  have h4 : 100 ≤ items.length % 100 + 99 % 100 := by omega
  rw [if_pos h4]
  try norm_num

set_option maxRecDepth 8192 in
/-- Witness for C2: a 150-item backend (not a multiple of the page size)
and a 100-item backend (a positive multiple). -/
theorem paginatedGet_spec_witness :
    (¬ (pageLimit ∣ (List.range 150).length)
      ∧ (paginatedGet (List.range 150)).2
          = ((List.range 150).length + (pageLimit - 1)) / pageLimit)
    ∧ (pageLimit ∣ (List.range 100).length
      ∧ (paginatedGet (List.range 100)).2 = (List.range 100).length / pageLimit + 1) :=
  ⟨⟨by decide, (paginatedGet_spec Nat (List.range 150)).2.1 (by decide)⟩,
   ⟨by decide, (paginatedGet_spec Nat (List.range 100)).2.2 (by decide)⟩⟩

/-- The pagination loop of `fetchAllInvoicesPaged` over a fallible
backend: `failAt offset` is the error the request at `offset` raises, if
any; a raised error is wrapped as `LeadConnector API error: <message>`
and aborts the whole loop, discarding everything accumulated so far. -/
def pagedGoE (items : List α) (failAt : Nat → Option String) (offset : Nat) :
    Except String (List α) :=
  match failAt offset with
  | some e => Except.error ("LeadConnector API error: " ++ e)
  | none =>
    if h : (fetchPage items offset).length < pageLimit then
      Except.ok (fetchPage items offset)
    else
      (pagedGoE items failAt (offset + pageLimit)).map
        (fun rest => fetchPage items offset ++ rest)
termination_by items.length - offset
decreasing_by
  simp only [fetchPage, List.length_take, List.length_drop, pageLimit] at h ⊢
  omega

/-- `fetchAllInvoicesPaged` started at offset 0. -/
def fetchAllInvoicesPaged (items : List α) (failAt : Nat → Option String) :
    Except String (List α) :=
  pagedGoE items failAt 0

theorem pagedGoE_ok_aux {α : Type} (items : List α) (failAt : Nat → Option String) :
    ∀ (n offset : Nat) (l : List α), items.length - offset ≤ n →
      pagedGoE items failAt offset = Except.ok l → l = items.drop offset := by
  intro n
  induction n with
  | zero =>
    intro offset l hle hok
    rw [pagedGoE] at hok
    cases hf : failAt offset with
    | some e => rw [hf] at hok; exact absurd hok (by simp)
    | none =>
      rw [hf] at hok
      have hlen : (fetchPage items offset).length < pageLimit := by
        simp only [fetchPage, List.length_take, List.length_drop, pageLimit]
        omega
      rw [dif_pos hlen] at hok
      have : fetchPage items offset = l := by
        simpa using hok
      rw [this.symm]
      simp only [fetchPage]
      exact List.take_of_length_le (by simp [pageLimit]; omega)
  | succ n ih =>
    intro offset l hle hok
    rw [pagedGoE] at hok
    cases hf : failAt offset with
    | some e => rw [hf] at hok; exact absurd hok (by simp)
    | none =>
      rw [hf] at hok
      by_cases hlen : (fetchPage items offset).length < pageLimit
      · rw [dif_pos hlen] at hok
        simp only [fetchPage, List.length_take, List.length_drop, pageLimit] at hlen
        have : fetchPage items offset = l := by
          simpa using hok
        rw [this.symm]
        simp only [fetchPage]
        exact List.take_of_length_le (by simp [pageLimit]; omega)
      · rw [dif_neg hlen] at hok
        simp only [fetchPage, List.length_take, List.length_drop, pageLimit] at hlen
        cases hrec : pagedGoE items failAt (offset + pageLimit) with
        | error e => rw [hrec] at hok; exact absurd hok (by simp [Except.map])
        | ok rest =>
          rw [hrec] at hok
          have hrest : rest = items.drop (offset + pageLimit) :=
            ih (offset + pageLimit) rest (by simp only [pageLimit]; omega) hrec
          have hl : fetchPage items offset ++ rest = l := by
            simpa [Except.map] using hok
          rw [hl.symm, hrest]
          simp only [fetchPage]
          have hdd : items.drop (offset + pageLimit) = (items.drop offset).drop pageLimit := by
            rw [List.drop_drop]
          rw [hdd, List.take_append_drop]

theorem pagedGoE_error_aux {α : Type} (items : List α) (failAt : Nat → Option String) :
    ∀ (j offset : Nat) (e : String),
      (∀ i, i < j → failAt (offset + pageLimit * i) = none) →
      failAt (offset + pageLimit * j) = some e →
      offset + pageLimit * j ≤ items.length →
      pagedGoE items failAt offset = Except.error ("LeadConnector API error: " ++ e) := by
  intro j
  induction j with
  | zero =>
    intro offset e _ hfail _
    rw [Nat.mul_zero, Nat.add_zero] at hfail
    rw [pagedGoE, hfail]
  | succ j ih =>
    intro offset e hnone hfail hbound
    have h0 : failAt offset = none := by
      have := hnone 0 (Nat.succ_pos j)
      rwa [Nat.mul_zero, Nat.add_zero] at this
    rw [pagedGoE, h0]
    have hlen : ¬ (fetchPage items offset).length < pageLimit := by
      simp only [fetchPage, List.length_take, List.length_drop, pageLimit]
      simp only [pageLimit] at hbound
      have : 100 * (j + 1) ≥ 100 := by omega
      omega
    rw [dif_neg hlen]
    have hshift : ∀ i, i < j → failAt (offset + pageLimit + pageLimit * i) = none := by
      intro i hi
      have := hnone (i + 1) (by omega)
      rwa [Nat.mul_succ, show offset + (pageLimit * i + pageLimit)
        = offset + pageLimit + pageLimit * i by omega] at this
    have hfail2 : failAt (offset + pageLimit + pageLimit * j) = some e := by
      rwa [Nat.mul_succ, show offset + (pageLimit * j + pageLimit)
        = offset + pageLimit + pageLimit * j by omega] at hfail
    have hbound2 : offset + pageLimit + pageLimit * j ≤ items.length := by
      rw [Nat.mul_succ] at hbound
      omega
    rw [ih (offset + pageLimit) e hshift hfail2 hbound2]
    rfl

/-- C3: the fallible paginator never returns a partial concatenation — a
successful run returns exactly the backend's full list, and when the
first failing request occurs at page index `j` (every earlier page having
succeeded and been full), the whole pagination aborts with the wrapped
error of that failing page and no item list is returned at all. -/
theorem fetchAllInvoicesPaged_spec (α : Type) (items : List α)
    (failAt : Nat → Option String) :
    (∀ l, fetchAllInvoicesPaged items failAt = Except.ok l → l = items)
    ∧ (∀ j e, (∀ i, i < j → failAt (pageLimit * i) = none) →
        failAt (pageLimit * j) = some e →
        pageLimit * j ≤ items.length →
        fetchAllInvoicesPaged items failAt = Except.error ("LeadConnector API error: " ++ e)
        ∧ ∀ l, fetchAllInvoicesPaged items failAt ≠ Except.ok l) := by
  constructor
  · intro l hok
    have := pagedGoE_ok_aux items failAt items.length 0 l (by omega) hok
    simpa using this
  · intro j e hnone hfail hbound
    have herr : fetchAllInvoicesPaged items failAt
        = Except.error ("LeadConnector API error: " ++ e) := by
      unfold fetchAllInvoicesPaged
      refine pagedGoE_error_aux items failAt j 0 e ?_ ?_ ?_
      · intro i hi
        simpa using hnone i hi
      · simpa using hfail
      · simpa using hbound
    refine ⟨herr, fun l hok => ?_⟩
    rw [herr] at hok
    exact absurd hok (by simp)

/-- Witness for C3: a 120-item backend whose second page request (offset
100) fails. -/
theorem fetchAllInvoicesPaged_spec_witness :
    ((fun o => if o = 100 then some "boom" else none : Nat → Option String) (pageLimit * 1)
        = some "boom"
      ∧ pageLimit * 1 ≤ (List.range 120).length)
    ∧ fetchAllInvoicesPaged (List.range 120)
        (fun o => if o = 100 then some "boom" else none)
        = Except.error ("LeadConnector API error: " ++ "boom") :=
  ⟨⟨by decide, by decide⟩,
   ((fetchAllInvoicesPaged_spec Nat (List.range 120)
      (fun o => if o = 100 then some "boom" else none)).2 1 "boom"
      (by decide) (by decide) (by decide)).1⟩

/-! ## Invoice data model and `fetchInvoices`
(`src/connectors/leadconnector.ts`, `src/types/crm.ts`) -/

/-- A contact address as embedded in invoice contact snapshots. -/
structure Address where
  addressLine1 : String
  city : String
  state : String
  postalCode : String
deriving Repr, DecidableEq

/-- The contact snapshot optionally embedded in an invoice
(`contactDetails`). -/
structure ContactDetails where
  id : String
  name : String
  email : String
  phoneNo : String
  address : Option Address
deriving Repr, DecidableEq

/-- A raw invoice as served by the `/invoices/` listing endpoint. The
source field `invoiceNumberPrefix` is embedded as `invoiceNumberPfx`. -/
structure RawInvoice where
  _id : String
  id : String
  invoiceNumber : String
  invoiceNumberPfx : String
  status : String
  amountPaid : Option Int
  amountDue : Option Int
  total : Option Int
  amount : Option Int
  issueDate : Option String
  dueDate : Option String
  liveMode : Option Bool
  altType : String
  altId : String
  companyId : String
  contactDetails : Option ContactDetails
deriving Repr, DecidableEq

/-- The normalized `Invoice` of the shared type vocabulary. The source
field `invoiceNumberPrefix` is embedded as `invoiceNumberPfx`. -/
structure Invoice where
  id : String
  invoiceNumber : String
  invoiceNumberPfx : String
  status : String
  amountPaid : Int
  amountDue : Int
  total : Int
  issueDate : Option String
  dueDate : Option String
  liveMode : Bool
  altType : String
  altId : String
  companyId : String
  contactDetails : Option ContactDetails
deriving Repr, DecidableEq

/-- `LeadConnectorCRM.normalizeInvoice`, field by field. -/
def normalizeInvoice (raw : RawInvoice) : Invoice where
  id := jsOr raw._id (jsOr raw.id "")
  invoiceNumber := jsOr raw.invoiceNumber ""
  invoiceNumberPfx := jsOr raw.invoiceNumberPfx "INV-"
  status := jsOr raw.status ""
  amountPaid := jsOrInt raw.amountPaid 0
  amountDue := jsOrInt raw.amountDue 0
  total := jsOrInt raw.total (jsOrInt raw.amount 0)
  issueDate := jsOrNull raw.issueDate
  dueDate := jsOrNull raw.dueDate
  liveMode := match raw.liveMode with | some b => b | none => false
  altType := jsOr raw.altType ""
  altId := jsOr raw.altId ""
  companyId := jsOr raw.companyId ""
  contactDetails := raw.contactDetails

/-- The date-window filter of `fetchInvoices`: a raw invoice passes when
its `issueDate` is present (truthy) and parses to a time `t` with
`startMs ≤ t < endMs`. An absent, empty or unparseable (`NaN`) issue
date fails both comparisons and is rejected. -/
def issueInWindow (parseMs : String → Option Int) (startMs endMs : Int)
    (raw : RawInvoice) : Bool :=
  match raw.issueDate with
  | none => false
  | some s =>
    if s = "" then false
    else
      match parseMs s with
      | none => false
      | some t => decide (startMs ≤ t) && decide (t < endMs)

/-- `LeadConnectorCRM.fetchInvoices` applied to the full paginated raw
invoice list served by the backend: filter to the `[start, end)` window,
then normalize. -/
def fetchInvoices (parseMs : String → Option Int) (startMs endMs : Int)
    (all : List RawInvoice) : List Invoice :=
  (all.filter (issueInWindow parseMs startMs endMs)).map normalizeInvoice

theorem issueInWindow_iff (parseMs : String → Option Int) (startMs endMs : Int)
    (raw : RawInvoice) :
    issueInWindow parseMs startMs endMs raw = true
    ↔ ∃ s t, raw.issueDate = some s ∧ s ≠ "" ∧ parseMs s = some t
        ∧ startMs ≤ t ∧ t < endMs := by
  unfold issueInWindow
  constructor
  · intro hwin
    split at hwin
    · exact absurd hwin (by simp)
    · rename_i s hd
      split at hwin
      · exact absurd hwin (by simp)
      · rename_i hs
        split at hwin
        · exact absurd hwin (by simp)
        · rename_i t hp
          simp only [Bool.and_eq_true, decide_eq_true_eq] at hwin
          exact ⟨s, t, hd, hs, hp, hwin.1, hwin.2⟩
  · rintro ⟨s, t, hd, hs, hp, h1, h2⟩
    simp [hd, hs, hp, h1, h2]

/-- C1: every invoice returned by `fetchInvoices` comes from a raw
invoice whose issue timestamp is present, parseable and inside the
half-open window `[startMs, endMs)`; raw invoices with an absent, empty
or unparseable issue date never survive the filter. -/
theorem fetchInvoices_window_spec (parseMs : String → Option Int) (startMs endMs : Int)
    (all : List RawInvoice) :
    (∀ inv ∈ fetchInvoices parseMs startMs endMs all,
      ∃ raw ∈ all, inv = normalizeInvoice raw
        ∧ ∃ s t, raw.issueDate = some s ∧ s ≠ "" ∧ parseMs s = some t
          ∧ startMs ≤ t ∧ t < endMs)
    ∧ (∀ raw ∈ all,
        (raw.issueDate = none ∨ raw.issueDate = some ""
          ∨ (∀ s, raw.issueDate = some s → parseMs s = none)) →
        raw ∉ all.filter (issueInWindow parseMs startMs endMs)) := by
  constructor
  · intro inv hinv
    simp only [fetchInvoices, List.mem_map, List.mem_filter] at hinv
    obtain ⟨raw, ⟨hmem, hwin⟩, heq⟩ := hinv
    exact ⟨raw, hmem, heq.symm, (issueInWindow_iff parseMs startMs endMs raw).mp hwin⟩
  · intro raw _ hbad hmem
    rw [List.mem_filter] at hmem
    obtain ⟨s, t, hd, hs, hp, _, _⟩ :=
      (issueInWindow_iff parseMs startMs endMs raw).mp hmem.2
    rcases hbad with hd2 | hd2 | hp2
    · rw [hd2] at hd; exact absurd hd (by simp)
    · rw [hd2] at hd
      have : s = "" := by injection hd; simp_all
      exact hs this
    · rw [hp2 s hd] at hp
      exact absurd hp (by simp)

/-- A raw invoice with every field absent, used to build concrete
witnesses. -/
def rawInvoiceBase : RawInvoice :=
  ⟨"", "", "", "", "", none, none, none, none, none, none, none, "", "", "", none⟩

/-- A concrete millisecond parser for witnesses: a finite table of
parseable date strings. -/
def parseTable : String → Option Int :=
  fun s => if s = "d5" then some 5 else if s = "d7" then some 7 else none

/-- Witness for C1: a two-invoice backend, one invoice inside the window
`[0, 10)` and one with an absent issue date. -/
theorem fetchInvoices_window_spec_witness :
    (normalizeInvoice { rawInvoiceBase with issueDate := some "d5" }
        ∈ fetchInvoices parseTable 0 10
          [{ rawInvoiceBase with issueDate := some "d5" }, rawInvoiceBase]
      ∧ (∃ raw ∈ [{ rawInvoiceBase with issueDate := some "d5" }, rawInvoiceBase],
          normalizeInvoice { rawInvoiceBase with issueDate := some "d5" }
            = normalizeInvoice raw
          ∧ ∃ s t, raw.issueDate = some s ∧ s ≠ "" ∧ parseTable s = some t
            ∧ (0 : Int) ≤ t ∧ t < 10))
    ∧ (rawInvoiceBase
        ∉ [{ rawInvoiceBase with issueDate := some "d5" }, rawInvoiceBase].filter
            (issueInWindow parseTable 0 10)) :=
  ⟨⟨by decide,
    (fetchInvoices_window_spec parseTable 0 10
      [{ rawInvoiceBase with issueDate := some "d5" }, rawInvoiceBase]).1
      (normalizeInvoice { rawInvoiceBase with issueDate := some "d5" }) (by decide)⟩,
   (fetchInvoices_window_spec parseTable 0 10
      [{ rawInvoiceBase with issueDate := some "d5" }, rawInvoiceBase]).2
      rawInvoiceBase (by decide) (Or.inl rfl)⟩

/-! ## Owner enrichment (`InvoiceService.buildOwnerLookup`) -/

/-- An account owner: identifier and display name, both possibly empty. -/
structure Owner where
  ownerId : String
  ownerName : String
deriving Repr, DecidableEq

/-- A contact as returned by `fetchContact`. -/
structure Contact where
  id : String
  name : String
  email : String
  phoneNo : String
  ownerId : String
  ownerName : String
  address : Option Address
deriving Repr, DecidableEq

/-- One step of the unique-contact-id collection pass of
`buildOwnerLookup` (`if (cid) contactIds.add(cid)`): a truthy embedded
contact id is appended the first time it is seen, modelling the
insertion-order iteration of a JavaScript `Set`. -/
def addContactId (acc : List String) (inv : Invoice) : List String :=
  match inv.contactDetails with
  | some cd => if cd.id ≠ "" ∧ cd.id ∉ acc then acc ++ [cd.id] else acc
  | none => acc

/-- The unique-contact-id collection pass of `buildOwnerLookup`: walk the
invoices in order, collecting the distinct truthy contact ids. -/
def uniqueContactIds (invoices : List Invoice) : List String :=
  invoices.foldl addContactId []

theorem addContactId_mem (acc : List String) (inv : Invoice) (cid : String) :
    cid ∈ addContactId acc inv
    ↔ cid ∈ acc ∨ ∃ cd, inv.contactDetails = some cd ∧ cd.id = cid ∧ cid ≠ "" := by
  cases hd : inv.contactDetails with
  | none =>
    have hred : addContactId acc inv = acc := by
      unfold addContactId
      rw [hd]
    rw [hred]
    simp [hd]
  | some cd =>
    have hred : addContactId acc inv
        = if cd.id ≠ "" ∧ cd.id ∉ acc then acc ++ [cd.id] else acc := by
      unfold addContactId
      rw [hd]
    rw [hred]
    by_cases hc : cd.id ≠ "" ∧ cd.id ∉ acc
    · rw [if_pos hc]
      simp only [List.mem_append, List.mem_singleton]
      constructor
      · rintro (h | h)
        · exact Or.inl h
        · refine Or.inr ⟨cd, rfl, h.symm, ?_⟩
          rw [h]
          exact hc.1
      · rintro (h | ⟨cd2, hcd2, hid, hne⟩)
        · exact Or.inl h
        · have hcc : cd2 = cd := by
            injection hcd2 with hval
            exact hval.symm
          subst hcc
          exact Or.inr hid.symm
    · rw [if_neg hc]
      constructor
      · intro h
        exact Or.inl h
      · rintro (h | ⟨cd2, hcd2, hid, hne⟩)
        · exact h
        · have hcc : cd2 = cd := by
            injection hcd2 with hval
            exact hval.symm
          subst hcc
          subst hid
          rcases not_and_or.mp hc with hbad | hbad
          · exact absurd hne (by simpa using hbad)
          · exact not_not.mp hbad

theorem addContactId_nodup (acc : List String) (inv : Invoice) (hacc : acc.Nodup) :
    (addContactId acc inv).Nodup := by
  cases hd : inv.contactDetails with
  | none =>
    have hred : addContactId acc inv = acc := by
      unfold addContactId
      rw [hd]
    rw [hred]
    exact hacc
  | some cd =>
    have hred : addContactId acc inv
        = if cd.id ≠ "" ∧ cd.id ∉ acc then acc ++ [cd.id] else acc := by
      unfold addContactId
      rw [hd]
    rw [hred]
    by_cases hc : cd.id ≠ "" ∧ cd.id ∉ acc
    · rw [if_pos hc]
      refine List.Nodup.append hacc (List.nodup_singleton _) ?_
      intro a ha hmem
      have haeq : a = cd.id := by simpa using hmem
      exact hc.2 (haeq ▸ ha)
    · rw [if_neg hc]
      exact hacc

/-- The owner recorded for one contact id in the lookup loop: the
contact's owner fields on success, the empty `Owner` when the fetch
fails. -/
def ownerOf (fetchContact : String → Except String Contact) (cid : String) : Owner :=
  match fetchContact cid with
  | Except.ok c => ⟨jsOr c.ownerId "", jsOr c.ownerName ""⟩
  | Except.error _ => ⟨"", ""⟩

/-- `InvoiceService.buildOwnerLookup`: iterate the distinct contact ids,
fetching each contact exactly once and recording its owner (or the empty
owner on failure). Returns the owner map as an association list together
with the trace of contact ids passed to `fetchContact`, in call order. -/
def buildOwnerLookup (fetchContact : String → Except String Contact)
    (invoices : List Invoice) : List (String × Owner) × List String :=
  (uniqueContactIds invoices).foldl
    (fun acc cid => (acc.1 ++ [(cid, ownerOf fetchContact cid)], acc.2 ++ [cid]))
    ([], [])

theorem buildOwnerLookup_closed (fetchContact : String → Except String Contact)
    (invoices : List Invoice) :
    buildOwnerLookup fetchContact invoices
      = ((uniqueContactIds invoices).map (fun cid => (cid, ownerOf fetchContact cid)),
         uniqueContactIds invoices) := by
  unfold buildOwnerLookup
  generalize uniqueContactIds invoices = ids
  suffices h : ∀ (ids : List String) (m : List (String × Owner)) (tr : List String),
      ids.foldl (fun acc cid => (acc.1 ++ [(cid, ownerOf fetchContact cid)], acc.2 ++ [cid]))
        (m, tr)
      = (m ++ ids.map (fun cid => (cid, ownerOf fetchContact cid)), tr ++ ids) by
    simpa using h ids [] []
  intro ids
  induction ids with
  | nil => intro m tr; simp
  | cons cid rest ih =>
    intro m tr
    simp only [List.foldl_cons, List.map_cons]
    rw [ih]
    simp

theorem uniqueContactIds_mem_aux (invoices : List Invoice) :
    ∀ (acc : List String) (cid : String),
      cid ∈ invoices.foldl addContactId acc
      ↔ cid ∈ acc
        ∨ ∃ inv ∈ invoices, ∃ cd, inv.contactDetails = some cd ∧ cd.id = cid ∧ cid ≠ "" := by
  induction invoices with
  | nil => intro acc cid; simp
  | cons inv rest ih =>
    intro acc cid
    simp only [List.foldl_cons]
    rw [ih, addContactId_mem]
    constructor
    · rintro ((h | ⟨cd, hcd, hid, hne⟩) | ⟨inv2, hmem, cd, hcd, hid, hne⟩)
      · exact Or.inl h
      · exact Or.inr ⟨inv, List.mem_cons_self inv rest, cd, hcd, hid, hne⟩
      · exact Or.inr ⟨inv2, List.mem_cons_of_mem inv hmem, cd, hcd, hid, hne⟩
    · rintro (h | ⟨inv2, hmem, cd, hcd, hid, hne⟩)
      · exact Or.inl (Or.inl h)
      · rcases List.mem_cons.mp hmem with heq | hmem2
        · subst heq
          exact Or.inl (Or.inr ⟨cd, hcd, hid, hne⟩)
        · exact Or.inr ⟨inv2, hmem2, cd, hcd, hid, hne⟩

theorem uniqueContactIds_mem (invoices : List Invoice) (cid : String) :
    cid ∈ uniqueContactIds invoices
      ↔ ∃ inv ∈ invoices, ∃ cd, inv.contactDetails = some cd ∧ cd.id = cid ∧ cid ≠ "" := by
  unfold uniqueContactIds
  rw [uniqueContactIds_mem_aux invoices [] cid]
  simp

theorem uniqueContactIds_nodup_aux (invoices : List Invoice) :
    ∀ acc : List String, acc.Nodup → (invoices.foldl addContactId acc).Nodup := by
  induction invoices with
  | nil => intro acc hacc; simpa using hacc
  | cons inv rest ih =>
    intro acc hacc
    simp only [List.foldl_cons]
    exact ih (addContactId acc inv) (addContactId_nodup acc inv hacc)

theorem uniqueContactIds_nodup (invoices : List Invoice) :
    (uniqueContactIds invoices).Nodup :=
  uniqueContactIds_nodup_aux invoices [] List.nodup_nil

theorem lookup_map_pairs {β : Type} (f : String → β) :
    ∀ (ids : List String) (cid : String), cid ∈ ids →
      (ids.map (fun i => (i, f i))).lookup cid = some (f cid) := by
  intro ids
  induction ids with
  | nil => intro cid h; exact absurd h (by simp)
  | cons i rest ih =>
    intro cid hmem
    by_cases hci : cid = i
    · subst hci
      simp [List.lookup]
    · have hne : (cid == i) = false := beq_eq_false_iff_ne.mpr hci
      have hmem2 : cid ∈ rest := by
        rcases List.mem_cons.mp hmem with h | h
        · exact absurd h hci
        · exact h
      simp [List.lookup, hne, ih cid hmem2]

/-- C4: `buildOwnerLookup` maps exactly the distinct embedded contact
ids of the input invoices, invokes the connector's contact lookup
exactly once per distinct id, records the empty `Owner` for an id whose
lookup fails, records the contact's owner fields for an id whose lookup
succeeds, and never drops the other ids when one lookup fails. -/
theorem buildOwnerLookup_spec (fetchContact : String → Except String Contact)
    (invoices : List Invoice) :
    ((buildOwnerLookup fetchContact invoices).1.map Prod.fst = uniqueContactIds invoices)
    ∧ (∀ cid, cid ∈ uniqueContactIds invoices
        ↔ ∃ inv ∈ invoices, ∃ cd, inv.contactDetails = some cd ∧ cd.id = cid ∧ cid ≠ "")
    ∧ ((buildOwnerLookup fetchContact invoices).2 = uniqueContactIds invoices)
    ∧ (∀ cid, cid ∈ uniqueContactIds invoices →
        (buildOwnerLookup fetchContact invoices).2.count cid = 1)
    ∧ (∀ cid e, cid ∈ uniqueContactIds invoices → fetchContact cid = Except.error e →
        (buildOwnerLookup fetchContact invoices).1.lookup cid = some ⟨"", ""⟩)
    ∧ (∀ cid c, cid ∈ uniqueContactIds invoices → fetchContact cid = Except.ok c →
        (buildOwnerLookup fetchContact invoices).1.lookup cid
          = some ⟨jsOr c.ownerId "", jsOr c.ownerName ""⟩) := by
  rw [buildOwnerLookup_closed]
  have hkeys : ((uniqueContactIds invoices).map
      (fun cid => (cid, ownerOf fetchContact cid))).map Prod.fst = uniqueContactIds invoices := by
    rw [List.map_map]
    have hident : (Prod.fst ∘ fun cid => (cid, ownerOf fetchContact cid)) = id := rfl
    rw [hident, List.map_id]
  refine ⟨hkeys, fun cid => uniqueContactIds_mem invoices cid, rfl, ?_, ?_, ?_⟩
  · intro cid hmem
    exact List.count_eq_one_of_mem (uniqueContactIds_nodup invoices) hmem
  · intro cid e hmem herr
    rw [lookup_map_pairs (ownerOf fetchContact) (uniqueContactIds invoices) cid hmem]
    unfold ownerOf
    rw [herr]
  · intro cid c hmem hok
    rw [lookup_map_pairs (ownerOf fetchContact) (uniqueContactIds invoices) cid hmem]
    unfold ownerOf
    rw [hok]

/-- An invoice with every field empty, used to build concrete
witnesses. -/
def invoiceBase : Invoice :=
  ⟨"", "", "", "", 0, 0, 0, none, none, false, "", "", "", none⟩

/-- A contact snapshot with only an id, used in witnesses. -/
def cdOf (cid : String) : ContactDetails := ⟨cid, "", "", "", none⟩

/-- A concrete contact fetcher for witnesses: contact `c1` resolves,
contact `c2` errors. -/
def fetchTable : String → Except String Contact :=
  fun cid =>
    if cid = "c1" then Except.ok ⟨"c1", "Ann", "", "", "o1", "Rep", none⟩
    else Except.error "HTTP 500"

/-- Witness for C4: two invoices sharing contact `c1`, one invoice with
contact `c2` whose lookup fails, and one invoice with no contact. -/
theorem buildOwnerLookup_spec_witness :
    ("c1" ∈ uniqueContactIds
        [{ invoiceBase with contactDetails := some (cdOf "c1") },
         { invoiceBase with contactDetails := some (cdOf "c1") },
         { invoiceBase with contactDetails := some (cdOf "c2") }, invoiceBase]
      ∧ (buildOwnerLookup fetchTable
          [{ invoiceBase with contactDetails := some (cdOf "c1") },
           { invoiceBase with contactDetails := some (cdOf "c1") },
           { invoiceBase with contactDetails := some (cdOf "c2") }, invoiceBase]).2.count "c1"
          = 1)
    ∧ (fetchTable "c2" = Except.error "HTTP 500"
      ∧ (buildOwnerLookup fetchTable
          [{ invoiceBase with contactDetails := some (cdOf "c1") },
           { invoiceBase with contactDetails := some (cdOf "c1") },
           { invoiceBase with contactDetails := some (cdOf "c2") }, invoiceBase]).1.lookup "c2"
          = some ⟨"", ""⟩) :=
  ⟨⟨by decide,
    (buildOwnerLookup_spec fetchTable
      [{ invoiceBase with contactDetails := some (cdOf "c1") },
       { invoiceBase with contactDetails := some (cdOf "c1") },
       { invoiceBase with contactDetails := some (cdOf "c2") }, invoiceBase]).2.2.2.1 "c1"
      (by decide)⟩,
   ⟨rfl,
    (buildOwnerLookup_spec fetchTable
      [{ invoiceBase with contactDetails := some (cdOf "c1") },
       { invoiceBase with contactDetails := some (cdOf "c1") },
       { invoiceBase with contactDetails := some (cdOf "c2") }, invoiceBase]).2.2.2.2.1 "c2"
      "HTTP 500" (by decide) rfl⟩⟩

/-! ## Payment-type joiner (`src/services/paymentService.ts`) -/

/-- The card detail of a charge (`payment_method_details.card`). -/
structure CardInfo where
  last4 : String
  brand : String
deriving Repr, DecidableEq

/-- A charge's `payment_method_details` snapshot. -/
structure PaymentMethodDetails where
  type : String
  card : Option CardInfo
deriving Repr, DecidableEq

/-- One element of `chargeSnapshot.charges.data`. -/
structure ChargeInfo where
  payment_method_details : Option PaymentMethodDetails
deriving Repr, DecidableEq

/-- The `chargeSnapshot.charges` container (`data` collapses an absent
array and an empty array, which behave identically under `[0]`). -/
structure ChargesData where
  data : List ChargeInfo
deriving Repr, DecidableEq

/-- The generic `chargeSnapshot.payment_method` record. -/
structure PaymentMethodInfo where
  type : String
deriving Repr, DecidableEq

/-- A cheque/check record inside the charge snapshot. -/
structure ChequeInfo where
  number : String
deriving Repr, DecidableEq

/-- The opaque backend payment snapshot attached to a transaction. -/
structure ChargeSnapshot where
  mode : String
  cheque : Option ChequeInfo
  check : Option ChequeInfo
  charges : Option ChargesData
  payment_method : Option PaymentMethodInfo
deriving Repr, DecidableEq

/-- The nested `entitySource` record of a transaction. -/
structure EntitySource where
  id : String
deriving Repr, DecidableEq

/-- A raw payment transaction as consumed by `buildPaymentMap`. -/
structure Transaction where
  status : String
  entityId : String
  entitySource : Option EntitySource
  fulfilledAt : String
  createdAt : String
  updatedAt : String
  chargeSnapshot : Option ChargeSnapshot
deriving Repr, DecidableEq

/-- `txnTimeMs`: the effective timestamp of a transaction — the first
truthy field among `fulfilledAt`, `createdAt`, `updatedAt`, parsed to
milliseconds; `none` when no candidate is present or parsing yields
`NaN`. -/
def txnTimeMs (parseMs : String → Option Int) (txn : Transaction) : Option Int :=
  let v := jsOr txn.fulfilledAt (jsOr txn.createdAt (jsOr txn.updatedAt ""))
  if v = "" then none else parseMs v

/-- `normalizeType`: trim, lower-case and identify `cheque` with
`check`. -/
def normalizeType (t : String) : String :=
  let s := toLowerStr (trimStr (jsOr t ""))
  if s = "cheque" then "check" else s

/-- `txn?.chargeSnapshot?.mode`, with `""` for an absent snapshot. -/
def snapMode (txn : Transaction) : String :=
  match txn.chargeSnapshot with
  | some s => s.mode
  | none => ""

/-- `txn?.chargeSnapshot?.cheque?.number || txn?.chargeSnapshot?.check?.number || ""`. -/
def snapChequeNo (txn : Transaction) : String :=
  match txn.chargeSnapshot with
  | some s =>
    jsOr (match s.cheque with | some c => c.number | none => "")
      (jsOr (match s.check with | some c => c.number | none => "") "")
  | none => ""

/-- `txn?.chargeSnapshot?.charges?.data?.[0]`. -/
def charge0 (txn : Transaction) : Option ChargeInfo :=
  (txn.chargeSnapshot.bind (fun s => s.charges)).bind (fun cd => cd.data.head?)

/-- `charge0?.payment_method_details?.type`, with `""` for absent. -/
def pmTypeOf (txn : Transaction) : String :=
  match (charge0 txn).bind (fun c => c.payment_method_details) with
  | some p => p.type
  | none => ""

/-- The last-4/brand detail string of the card branch of
`derivePayment`. -/
def cardDetail (txn : Transaction) : String :=
  let card := ((charge0 txn).bind (fun c => c.payment_method_details)).bind (fun p => p.card)
  let last4 := match card with | some c => c.last4 | none => ""
  let brand := match card with | some c => c.brand | none => ""
  if last4 ≠ "" then "•••• " ++ last4 ++ (if brand ≠ "" then " (" ++ brand ++ ")" else "")
  else if brand ≠ "" then "(" ++ brand ++ ")" else ""

/-- `txn?.chargeSnapshot?.payment_method?.type || ""`. -/
def altPmType (txn : Transaction) : String :=
  match txn.chargeSnapshot.bind (fun s => s.payment_method) with
  | some pm => pm.type
  | none => ""

/-- `derivePayment`: manual payment mode first (with an optional check
number detail), then the nested card charge's payment-method type (with
last-4/brand detail), then the generic payment-method type. -/
def derivePayment (txn : Transaction) : String × String :=
  if snapMode txn ≠ "" then
    (normalizeType (snapMode txn),
     if snapChequeNo txn ≠ "" then "#" ++ snapChequeNo txn else "")
  else if pmTypeOf txn ≠ "" then
    (normalizeType (pmTypeOf txn), cardDetail txn)
  else
    (normalizeType (altPmType txn), "")

/-- `txn?.entityId || txn?.entitySource?.id || ""`. -/
def resolveInvoiceId (txn : Transaction) : String :=
  jsOr txn.entityId
    (jsOr (match txn.entitySource with | some es => es.id | none => "") "")

/-- The per-invoice aggregation bucket of `buildPaymentMap`. The two
`Set`s are embedded as insertion-ordered duplicate-free lists. -/
structure PaymentBucket where
  types : List String
  details : List String
  latestMs : Option Int
  latestType : String
  latestDetail : String
deriving Repr, DecidableEq

/-- The fresh bucket created on first sight of an invoice id. -/
def emptyBucket : PaymentBucket := ⟨[], [], none, "", ""⟩

/-- JavaScript `Set.prototype.add`: append unless already present. -/
def setAdd (l : List String) (s : String) : List String :=
  if s ∈ l then l else l ++ [s]

/-- JavaScript `Map.prototype.set` on an association list: update in
place when the key exists (preserving insertion order), append
otherwise. -/
def mapSet (m : List (String × PaymentBucket)) (key : String) (b : PaymentBucket) :
    List (String × PaymentBucket) :=
  if key ∈ m.map Prod.fst then
    m.map (fun kv => if kv.1 = key then (key, b) else kv)
  else m ++ [(key, b)]

/-- The new state of a bucket after one accepted transaction: add the
type and (if non-empty) the detail to the sets, and take over the latest
type, detail and timestamp when the transaction is strictly newer
(`bucket.latestMs === null || ms > bucket.latestMs`). -/
def bpmNewBucket (bucket : PaymentBucket) (ms : Int) (ty detail : String) : PaymentBucket :=
  let b1 : PaymentBucket :=
    { bucket with
      types := setAdd bucket.types ty,
      details := if detail ≠ "" then setAdd bucket.details detail else bucket.details }
  match b1.latestMs with
  | none => { b1 with latestMs := some ms, latestType := ty, latestDetail := detail }
  | some lm =>
    if lm < ms then { b1 with latestMs := some ms, latestType := ty, latestDetail := detail }
    else b1

/-- The map update of one accepted transaction: fetch (or freshly
create) the invoice's bucket, apply `bpmNewBucket`, and store it back. -/
def bpmUpdate (m : List (String × PaymentBucket)) (invoiceId : String) (ms : Int)
    (ty detail : String) : List (String × PaymentBucket) :=
  mapSet m invoiceId (bpmNewBucket ((m.lookup invoiceId).getD emptyBucket) ms ty detail)

/-- One iteration of the `buildPaymentMap` loop, with the source's
guard chain: skip unless the status is (case-insensitively)
`succeeded`, an invoice id resolves, the effective timestamp parses and
lies in `[startMs, endMs)`, and the derived payment type is
non-empty. -/
def bpmStep (parseMs : String → Option Int) (startMs endMs : Int)
    (m : List (String × PaymentBucket)) (txn : Transaction) :
    List (String × PaymentBucket) :=
  if toLowerStr txn.status ≠ "succeeded" then m
  else if resolveInvoiceId txn = "" then m
  else
    match txnTimeMs parseMs txn with
    | none => m
    | some ms =>
      if ms < startMs ∨ endMs ≤ ms then m
      else if (derivePayment txn).1 = "" then m
      else bpmUpdate m (resolveInvoiceId txn) ms (derivePayment txn).1 (derivePayment txn).2

/-- `buildPaymentMap`: fold the guarded bucket update over the
transaction list, starting from the empty map. -/
def buildPaymentMap (parseMs : String → Option Int) (startMs endMs : Int)
    (transactions : List Transaction) : List (String × PaymentBucket) :=
  transactions.foldl (bpmStep parseMs startMs endMs) []

/-- The conjunction of the guards of `bpmStep`, as a predicate: exactly
the transactions that contribute to some bucket. -/
def txnAccepted (parseMs : String → Option Int) (startMs endMs : Int)
    (txn : Transaction) : Bool :=
  decide (toLowerStr txn.status = "succeeded")
  && decide (resolveInvoiceId txn ≠ "")
  && (match txnTimeMs parseMs txn with
      | some ms => decide (startMs ≤ ms) && decide (ms < endMs)
      | none => false)
  && decide ((derivePayment txn).1 ≠ "")

theorem txnAccepted_iff (parseMs : String → Option Int) (startMs endMs : Int)
    (txn : Transaction) :
    txnAccepted parseMs startMs endMs txn = true
    ↔ (toLowerStr txn.status = "succeeded" ∧ resolveInvoiceId txn ≠ ""
       ∧ (∃ ms, txnTimeMs parseMs txn = some ms ∧ startMs ≤ ms ∧ ms < endMs)
       ∧ (derivePayment txn).1 ≠ "") := by
  unfold txnAccepted
  cases hms : txnTimeMs parseMs txn with
  | none => simp [hms]
  | some ms =>
    simp only [Bool.and_eq_true, decide_eq_true_eq]
    constructor
    · rintro ⟨⟨⟨h1, h2⟩, h3⟩, h4⟩
      exact ⟨h1, h2, ⟨ms, rfl, h3.1, h3.2⟩, h4⟩
    · rintro ⟨h1, h2, ⟨ms2, hms2, h3a, h3b⟩, h4⟩
      have hmm : ms2 = ms := (Option.some.inj hms2).symm
      subst hmm
      exact ⟨⟨⟨h1, h2⟩, h3a, h3b⟩, h4⟩

theorem bpmStep_not_accepted (parseMs : String → Option Int) (startMs endMs : Int)
    (m : List (String × PaymentBucket)) (txn : Transaction)
    (h : txnAccepted parseMs startMs endMs txn = false) :
    bpmStep parseMs startMs endMs m txn = m := by
  unfold bpmStep
  by_cases h1 : toLowerStr txn.status = "succeeded"
  · rw [if_neg (not_not_intro h1)]
    by_cases h2 : resolveInvoiceId txn = ""
    · rw [if_pos h2]
    · rw [if_neg h2]
      cases hms : txnTimeMs parseMs txn with
      | none => rfl
      | some ms =>
        show (if ms < startMs ∨ endMs ≤ ms then m
          else if (derivePayment txn).1 = "" then m
          else bpmUpdate m (resolveInvoiceId txn) ms (derivePayment txn).1
            (derivePayment txn).2) = m
        by_cases h3 : ms < startMs ∨ endMs ≤ ms
        · rw [if_pos h3]
        · rw [if_neg h3]
          by_cases h4 : (derivePayment txn).1 = ""
          · rw [if_pos h4]
          · exfalso
            push_neg at h3
            have hacc : txnAccepted parseMs startMs endMs txn = true :=
              (txnAccepted_iff parseMs startMs endMs txn).mpr
                ⟨h1, h2, ⟨ms, hms, h3.1, h3.2⟩, h4⟩
            rw [hacc] at h
            exact absurd h (by simp)
  · rw [if_pos h1]

theorem bpmStep_accepted_eq (parseMs : String → Option Int) (startMs endMs : Int)
    (m : List (String × PaymentBucket)) (txn : Transaction) (ms : Int)
    (hacc : txnAccepted parseMs startMs endMs txn = true)
    (hms : txnTimeMs parseMs txn = some ms) :
    bpmStep parseMs startMs endMs m txn
      = bpmUpdate m (resolveInvoiceId txn) ms (derivePayment txn).1 (derivePayment txn).2 := by
  obtain ⟨h1, h2, ⟨ms2, hms2, h3a, h3b⟩, h4⟩ :=
    (txnAccepted_iff parseMs startMs endMs txn).mp hacc
  have hmm : ms2 = ms := by
    rw [hms] at hms2
    exact (Option.some.inj hms2).symm
  subst hmm
  unfold bpmStep
  rw [if_neg (not_not_intro h1), if_neg h2, hms]
  show (if ms2 < startMs ∨ endMs ≤ ms2 then m
    else if (derivePayment txn).1 = "" then m
    else bpmUpdate m (resolveInvoiceId txn) ms2 (derivePayment txn).1
      (derivePayment txn).2)
    = bpmUpdate m (resolveInvoiceId txn) ms2 (derivePayment txn).1 (derivePayment txn).2
  rw [if_neg (by push_neg; exact ⟨h3a, h3b⟩), if_neg h4]

theorem mapSet_keys (m : List (String × PaymentBucket)) (key : String) (b : PaymentBucket) :
    (mapSet m key b).map Prod.fst
      = if key ∈ m.map Prod.fst then m.map Prod.fst else m.map Prod.fst ++ [key] := by
  unfold mapSet
  by_cases hk : key ∈ m.map Prod.fst
  · rw [if_pos hk, if_pos hk, List.map_map]
    have hf : (Prod.fst ∘ fun kv : String × PaymentBucket =>
        if kv.1 = key then (key, b) else kv) = Prod.fst := by
      funext kv
      by_cases hkv : kv.1 = key
      · simp [Function.comp, hkv]
      · simp [Function.comp, hkv]
    rw [hf]
  · rw [if_neg hk, if_neg hk]
    simp

theorem mapSet_key_mem (m : List (String × PaymentBucket)) (key : String) (b : PaymentBucket) :
    key ∈ (mapSet m key b).map Prod.fst := by
  rw [mapSet_keys]
  by_cases hk : key ∈ m.map Prod.fst
  · rw [if_pos hk]
    exact hk
  · rw [if_neg hk]
    exact List.mem_append_right _ (by simp)

theorem mapSet_keys_mono (m : List (String × PaymentBucket)) (key k : String)
    (b : PaymentBucket) (h : k ∈ m.map Prod.fst) : k ∈ (mapSet m key b).map Prod.fst := by
  rw [mapSet_keys]
  by_cases hk : key ∈ m.map Prod.fst
  · rw [if_pos hk]
    exact h
  · rw [if_neg hk]
    exact List.mem_append_left _ h

theorem bpmStep_keys_mono (parseMs : String → Option Int) (startMs endMs : Int)
    (m : List (String × PaymentBucket)) (txn : Transaction) (k : String)
    (h : k ∈ m.map Prod.fst) :
    k ∈ (bpmStep parseMs startMs endMs m txn).map Prod.fst := by
  by_cases hacc : txnAccepted parseMs startMs endMs txn = true
  · obtain ⟨_, _, ⟨ms, hms, _, _⟩, _⟩ := (txnAccepted_iff parseMs startMs endMs txn).mp hacc
    rw [bpmStep_accepted_eq parseMs startMs endMs m txn ms hacc hms]
    unfold bpmUpdate
    exact mapSet_keys_mono _ _ _ _ h
  · rw [bpmStep_not_accepted parseMs startMs endMs m txn (by simpa using hacc)]
    exact h

theorem bpmStep_accepted_mem (parseMs : String → Option Int) (startMs endMs : Int)
    (m : List (String × PaymentBucket)) (txn : Transaction)
    (hacc : txnAccepted parseMs startMs endMs txn = true) :
    resolveInvoiceId txn ∈ (bpmStep parseMs startMs endMs m txn).map Prod.fst := by
  obtain ⟨_, _, ⟨ms, hms, _, _⟩, _⟩ := (txnAccepted_iff parseMs startMs endMs txn).mp hacc
  rw [bpmStep_accepted_eq parseMs startMs endMs m txn ms hacc hms]
  unfold bpmUpdate
  exact mapSet_key_mem _ _ _

theorem foldl_bpmStep_keys_mono (parseMs : String → Option Int) (startMs endMs : Int)
    (txns : List Transaction) :
    ∀ (m : List (String × PaymentBucket)) (k : String), k ∈ m.map Prod.fst →
      k ∈ (txns.foldl (bpmStep parseMs startMs endMs) m).map Prod.fst := by
  induction txns with
  | nil => intro m k h; simpa using h
  | cons txn rest ih =>
    intro m k h
    simp only [List.foldl_cons]
    exact ih _ k (bpmStep_keys_mono parseMs startMs endMs m txn k h)

theorem foldl_bpmStep_mem (parseMs : String → Option Int) (startMs endMs : Int)
    (txns : List Transaction) :
    ∀ (m : List (String × PaymentBucket)) (txn : Transaction), txn ∈ txns →
      txnAccepted parseMs startMs endMs txn = true →
      resolveInvoiceId txn ∈ (txns.foldl (bpmStep parseMs startMs endMs) m).map Prod.fst := by
  induction txns with
  | nil => intro m txn h; exact absurd h (by simp)
  | cons t rest ih =>
    intro m txn hmem hacc
    simp only [List.foldl_cons]
    rcases List.mem_cons.mp hmem with heq | hmem2
    · subst heq
      exact foldl_bpmStep_keys_mono parseMs startMs endMs rest _ _
        (bpmStep_accepted_mem parseMs startMs endMs m txn hacc)
    · exact ih _ txn hmem2 hacc

theorem foldl_bpmStep_filter (parseMs : String → Option Int) (startMs endMs : Int)
    (txns : List Transaction) :
    ∀ m : List (String × PaymentBucket),
      txns.foldl (bpmStep parseMs startMs endMs) m
        = (txns.filter (txnAccepted parseMs startMs endMs)).foldl
            (bpmStep parseMs startMs endMs) m := by
  induction txns with
  | nil => intro m; rfl
  | cons txn rest ih =>
    intro m
    simp only [List.foldl_cons, List.filter_cons]
    by_cases hacc : txnAccepted parseMs startMs endMs txn = true
    · rw [if_pos hacc]
      simp only [List.foldl_cons]
      exact ih _
    · have hfalse : txnAccepted parseMs startMs endMs txn = false := by simpa using hacc
      rw [if_neg (by simp [hfalse])]
      rw [bpmStep_not_accepted parseMs startMs endMs m txn hfalse]
      exact ih m

/-- C6: `buildPaymentMap` depends only on the accepted transactions
(non-accepted ones, in particular any `pending` one, contribute to no
bucket), every accepted transaction's invoice id does appear as a bucket
key, and acceptance is exactly the conjunction: case-insensitive
`succeeded` status, a resolvable invoice id, an effective timestamp —
first of `fulfilledAt`, `createdAt`, `updatedAt` — parsing into
`[startMs, endMs)`, and a non-empty derived payment type. -/
theorem buildPaymentMap_spec (parseMs : String → Option Int) (startMs endMs : Int)
    (txns : List Transaction) :
    buildPaymentMap parseMs startMs endMs txns
      = buildPaymentMap parseMs startMs endMs
          (txns.filter (txnAccepted parseMs startMs endMs))
    ∧ (∀ txn ∈ txns, txnAccepted parseMs startMs endMs txn = true →
        resolveInvoiceId txn ∈ (buildPaymentMap parseMs startMs endMs txns).map Prod.fst)
    ∧ (∀ txn, txnAccepted parseMs startMs endMs txn = true
        ↔ (toLowerStr txn.status = "succeeded" ∧ resolveInvoiceId txn ≠ ""
           ∧ (∃ ms, txnTimeMs parseMs txn = some ms ∧ startMs ≤ ms ∧ ms < endMs)
           ∧ (derivePayment txn).1 ≠ ""))
    ∧ (∀ txn, toLowerStr txn.status = "pending" →
        txnAccepted parseMs startMs endMs txn = false
        ∧ ∀ m, bpmStep parseMs startMs endMs m txn = m) := by
  refine ⟨foldl_bpmStep_filter parseMs startMs endMs txns [],
    fun txn hmem hacc => foldl_bpmStep_mem parseMs startMs endMs txns [] txn hmem hacc,
    fun txn => txnAccepted_iff parseMs startMs endMs txn, fun txn hpend => ?_⟩
  have hfalse : txnAccepted parseMs startMs endMs txn = false := by
    unfold txnAccepted
    rw [hpend]
    simp
  exact ⟨hfalse, fun m => bpmStep_not_accepted parseMs startMs endMs m txn hfalse⟩

/-- A transaction with every field absent, used in witnesses. -/
def txnBase : Transaction := ⟨"", "", none, "", "", "", none⟩

/-- A charge snapshot with every field absent, used in witnesses. -/
def snapBase : ChargeSnapshot := ⟨"", none, none, none, none⟩

/-- A succeeded cheque transaction settling invoice `inv-1`. -/
def txnCheque : Transaction :=
  { txnBase with
    status := "Succeeded", entityId := "inv-1", fulfilledAt := "d5",
    chargeSnapshot := some { snapBase with mode := "cheque", cheque := some ⟨"42"⟩ } }

/-- A pending card transaction settling invoice `inv-2`. -/
def txnPending : Transaction :=
  { txnBase with status := "Pending", entityId := "inv-2", fulfilledAt := "d5" }

/-- A succeeded card transaction settling invoice `inv-3`. -/
def txnCard : Transaction :=
  { txnBase with
    status := "succeeded", entityId := "inv-3", createdAt := "d7",
    chargeSnapshot := some
      { snapBase with charges := some ⟨[⟨some ⟨"card", some ⟨"4242", "visa"⟩⟩⟩]⟩ } }

/-- Witness for C6: a case-insensitively succeeded cheque transaction is
bucketed under its invoice id; a pending transaction is not accepted. -/
theorem buildPaymentMap_spec_witness :
    (txnCheque ∈ [txnCheque, txnPending]
      ∧ txnAccepted parseTable 0 10 txnCheque = true
      ∧ resolveInvoiceId txnCheque
          ∈ (buildPaymentMap parseTable 0 10 [txnCheque, txnPending]).map Prod.fst)
    ∧ (toLowerStr txnPending.status = "pending"
      ∧ txnAccepted parseTable 0 10 txnPending = false) :=
  ⟨⟨by decide, by decide,
    (buildPaymentMap_spec parseTable 0 10 [txnCheque, txnPending]).2.1 txnCheque
      (by decide) (by decide)⟩,
   ⟨by decide,
    ((buildPaymentMap_spec parseTable 0 10 [txnCheque, txnPending]).2.2.2 txnPending
      (by decide)).1⟩⟩

/-- C7: `derivePayment` resolves the type/detail pair in strict priority
order — explicit manual mode first (with a `#<number>` cheque detail when
available), then the nested card charge's payment-method type with its
last-4/brand detail, then the generic payment-method type; `cheque` and
`check` normalize to the same type; and a transaction whose derived type
is empty is never accepted into the aggregation. -/
theorem derivePayment_spec (txn : Transaction) (parseMs : String → Option Int)
    (startMs endMs : Int) :
    (snapMode txn ≠ "" →
      derivePayment txn = (normalizeType (snapMode txn),
        if snapChequeNo txn ≠ "" then "#" ++ snapChequeNo txn else ""))
    ∧ (snapMode txn = "" → pmTypeOf txn ≠ "" →
      derivePayment txn = (normalizeType (pmTypeOf txn), cardDetail txn))
    ∧ (snapMode txn = "" → pmTypeOf txn = "" →
      derivePayment txn = (normalizeType (altPmType txn), ""))
    ∧ normalizeType "cheque" = "check"
    ∧ normalizeType "check" = "check"
    ∧ ((derivePayment txn).1 = "" → txnAccepted parseMs startMs endMs txn = false) := by
  refine ⟨?_, ?_, ?_, by decide, by decide, ?_⟩
  · intro hmode
    unfold derivePayment
    rw [if_pos hmode]
  · intro hmode hpm
    unfold derivePayment
    rw [if_neg (not_not_intro hmode), if_pos hpm]
  · intro hmode hpm
    unfold derivePayment
    rw [if_neg (not_not_intro hmode), if_neg (not_not_intro hpm)]
  · intro hempty
    unfold txnAccepted
    rw [hempty]
    simp

/-- Witness for C7: the cheque transaction takes the manual-mode branch
and the card transaction takes the card branch. -/
theorem derivePayment_spec_witness :
    (snapMode txnCheque ≠ ""
      ∧ derivePayment txnCheque = (normalizeType (snapMode txnCheque),
          if snapChequeNo txnCheque ≠ "" then "#" ++ snapChequeNo txnCheque else ""))
    ∧ (snapMode txnCard = "" ∧ pmTypeOf txnCard ≠ ""
      ∧ derivePayment txnCard = (normalizeType (pmTypeOf txnCard), cardDetail txnCard)) :=
  ⟨⟨by decide, (derivePayment_spec txnCheque parseTable 0 10).1 (by decide)⟩,
   ⟨by decide, by decide,
    (derivePayment_spec txnCard parseTable 0 10).2.1 (by decide) (by decide)⟩⟩

/-! ## Output rows (`toPaymentTypeRows`, `InvoiceService.transformToRows`) -/

/-- A spreadsheet cell: the heterogeneous `any[]` row entries are either
strings or numbers. -/
inductive Cell where
  | str (s : String)
  | num (n : Int)
deriving Repr, DecidableEq

/-- Lift a nullable backend date string into the `fmtDateMDY` input. -/
def dateInputOf (x : Option String) : DateInput :=
  match x with
  | some s => DateInput.dstr s
  | none => DateInput.dnull

/-- The `latest_payment_date` cell of a bucket:
`p?.latestMs ? fmtDateMDY(new Date(p.latestMs).toISOString(), tz) : ""`.
A `latestMs` of `0` is falsy and renders empty; otherwise the
round-trip through `toISOString` and re-parsing is the identity on the
millisecond value, so the cell is the rendering of `latestMs` itself. -/
def latestDateCell (parseMs : String → Option Int) (b : PaymentBucket)
    (timezone : String) : String :=
  match b.latestMs with
  | some ms => if ms = 0 then "" else fmtDateMDY parseMs (DateInput.dnum ms) timezone
  | none => ""

/-- One row of `toPaymentTypeRows`: the invoice's own fields followed by
the bucket's latest type/detail/date and the sorted `" + "`-joined type
and detail sets; all five payment cells are empty when the invoice has
no bucket. -/
def paymentTypeRow (parseMs : String → Option Int) (inv : Invoice)
    (pmap : List (String × PaymentBucket)) (timezone : String) : List Cell :=
  let p := pmap.lookup (jsOr inv.id "")
  [Cell.str (jsOr inv.id ""),
   Cell.str (jsOr inv.invoiceNumber ""),
   Cell.str (jsOr inv.invoiceNumberPfx "INV-" ++ jsOr inv.invoiceNumber ""),
   Cell.str (jsOr inv.status ""),
   Cell.num inv.amountPaid,
   Cell.num inv.amountDue,
   Cell.num inv.total,
   Cell.str (fmtDateMDY parseMs (dateInputOf inv.issueDate) timezone),
   Cell.str (fmtDateMDY parseMs (dateInputOf inv.dueDate) timezone),
   Cell.str (match p with | some b => b.latestType | none => ""),
   Cell.str (match p with | some b => b.latestDetail | none => ""),
   Cell.str (match p with | some b => latestDateCell parseMs b timezone | none => ""),
   Cell.str (match p with | some b => joinedSorted b.types | none => ""),
   Cell.str (match p with | some b => joinedSorted b.details | none => "")]

/-- `toPaymentTypeRows`: one row per invoice, in fetch order. -/
def toPaymentTypeRows (parseMs : String → Option Int) (invoices : List Invoice)
    (pmap : List (String × PaymentBucket)) (timezone : String) : List (List Cell) :=
  invoices.map (fun inv => paymentTypeRow parseMs inv pmap timezone)

theorem setAdd_nodup (l : List String) (s : String) (h : l.Nodup) : (setAdd l s).Nodup := by
  unfold setAdd
  by_cases hm : s ∈ l
  · rw [if_pos hm]
    exact h
  · rw [if_neg hm]
    refine List.Nodup.append h (List.nodup_singleton _) ?_
    intro a ha hmem
    have haeq : a = s := by simpa using hmem
    exact hm (haeq ▸ ha)

theorem lookup_mem {β : Type} : ∀ (m : List (String × β)) (k : String) (b : β),
    m.lookup k = some b → (k, b) ∈ m := by
  intro m
  induction m with
  | nil => intro k b h; exact absurd h (by simp)
  | cons kv rest ih =>
    intro k b h
    cases kv with
    | mk k1 b1 =>
      by_cases hk : k = k1
      · subst hk
        have hb : b1 = b := by simpa [List.lookup] using h
        subst hb
        exact List.mem_cons_self _ _
      · have hne : (k == k1) = false := beq_eq_false_iff_ne.mpr hk
        have h2 : rest.lookup k = some b := by simpa [List.lookup, hne] using h
        exact List.mem_cons_of_mem _ (ih k b h2)

theorem mapSet_mem (m : List (String × PaymentBucket)) (key : String) (b : PaymentBucket)
    (kb : String × PaymentBucket) (h : kb ∈ mapSet m key b) : kb = (key, b) ∨ kb ∈ m := by
  unfold mapSet at h
  by_cases hk : key ∈ m.map Prod.fst
  · rw [if_pos hk] at h
    obtain ⟨kv, hkv, heq⟩ := List.mem_map.mp h
    by_cases hkvk : kv.1 = key
    · rw [if_pos hkvk] at heq
      exact Or.inl heq.symm
    · rw [if_neg hkvk] at heq
      exact Or.inr (heq ▸ hkv)
  · rw [if_neg hk] at h
    rcases List.mem_append.mp h with h2 | h2
    · exact Or.inr h2
    · exact Or.inl (by simpa using h2)

/-- The per-bucket well-formedness carried by `buildPaymentMap`: both
stored sets are duplicate-free. -/
def bucketInv (b : PaymentBucket) : Prop := b.types.Nodup ∧ b.details.Nodup

theorem bpmNewBucket_inv (bucket : PaymentBucket) (ms : Int) (ty detail : String)
    (h : bucketInv bucket) : bucketInv (bpmNewBucket bucket ms ty detail) := by
  have hty : (setAdd bucket.types ty).Nodup := setAdd_nodup _ _ h.1
  have hdt : (if detail ≠ "" then setAdd bucket.details detail else bucket.details).Nodup := by
    by_cases hd : detail ≠ ""
    · rw [if_pos hd]
      exact setAdd_nodup _ _ h.2
    · rw [if_neg hd]
      exact h.2
  unfold bpmNewBucket
  cases hb : bucket.latestMs with
  | none => exact ⟨hty, hdt⟩
  | some lm =>
    by_cases hlt : lm < ms
    · simp only [hlt, if_true]
      exact ⟨hty, hdt⟩
    · simp only [hlt, if_false]
      exact ⟨hty, hdt⟩

theorem bpmStep_bucketInv (parseMs : String → Option Int) (startMs endMs : Int)
    (m : List (String × PaymentBucket)) (txn : Transaction)
    (hm : ∀ kb ∈ m, bucketInv kb.2) :
    ∀ kb ∈ bpmStep parseMs startMs endMs m txn, bucketInv kb.2 := by
  by_cases hacc : txnAccepted parseMs startMs endMs txn = true
  · obtain ⟨_, _, ⟨ms, hms, _, _⟩, _⟩ :=
      (txnAccepted_iff parseMs startMs endMs txn).mp hacc
    rw [bpmStep_accepted_eq parseMs startMs endMs m txn ms hacc hms]
    unfold bpmUpdate
    intro kb hkb
    rcases mapSet_mem _ _ _ _ hkb with heq | hin
    · rw [heq]
      apply bpmNewBucket_inv
      cases hlk : m.lookup (resolveInvoiceId txn) with
      | none => exact ⟨List.nodup_nil, List.nodup_nil⟩
      | some b0 =>
        have hb0 := hm _ (lookup_mem m (resolveInvoiceId txn) b0 hlk)
        simpa [hlk] using hb0
    · exact hm kb hin
  · rw [bpmStep_not_accepted parseMs startMs endMs m txn (by simpa using hacc)]
    exact hm

theorem foldl_bpmStep_bucketInv (parseMs : String → Option Int) (startMs endMs : Int)
    (txns : List Transaction) :
    ∀ m : List (String × PaymentBucket), (∀ kb ∈ m, bucketInv kb.2) →
      ∀ kb ∈ txns.foldl (bpmStep parseMs startMs endMs) m, bucketInv kb.2 := by
  induction txns with
  | nil => intro m hm; simpa using hm
  | cons txn rest ih =>
    intro m hm
    simp only [List.foldl_cons]
    exact ih _ (bpmStep_bucketInv parseMs startMs endMs m txn hm)

/-- C8: `toPaymentTypeRows` emits exactly one row per invoice; an
invoice with no bucket gets the empty string in all five payment cells;
an invoice with a bucket gets the bucket's latest type, detail and
formatted date plus the sorted `" + "`-joins of the type and detail
sets; `sortStrings` really sorts (a sorted permutation of its input);
and the sets held by any `buildPaymentMap` bucket are duplicate-free. -/
theorem toPaymentTypeRows_spec (parseMs : String → Option Int) (invs : List Invoice)
    (pmap : List (String × PaymentBucket)) (tz : String) (startMs endMs : Int)
    (txns : List Transaction) :
    (toPaymentTypeRows parseMs invs pmap tz).length = invs.length
    ∧ (∀ inv : Invoice, pmap.lookup (jsOr inv.id "") = none →
        paymentTypeRow parseMs inv pmap tz
          = [Cell.str (jsOr inv.id ""),
             Cell.str (jsOr inv.invoiceNumber ""),
             Cell.str (jsOr inv.invoiceNumberPfx "INV-" ++ jsOr inv.invoiceNumber ""),
             Cell.str (jsOr inv.status ""),
             Cell.num inv.amountPaid, Cell.num inv.amountDue, Cell.num inv.total,
             Cell.str (fmtDateMDY parseMs (dateInputOf inv.issueDate) tz),
             Cell.str (fmtDateMDY parseMs (dateInputOf inv.dueDate) tz),
             Cell.str "", Cell.str "", Cell.str "", Cell.str "", Cell.str ""])
    ∧ (∀ (inv : Invoice) (b : PaymentBucket), pmap.lookup (jsOr inv.id "") = some b →
        paymentTypeRow parseMs inv pmap tz
          = [Cell.str (jsOr inv.id ""),
             Cell.str (jsOr inv.invoiceNumber ""),
             Cell.str (jsOr inv.invoiceNumberPfx "INV-" ++ jsOr inv.invoiceNumber ""),
             Cell.str (jsOr inv.status ""),
             Cell.num inv.amountPaid, Cell.num inv.amountDue, Cell.num inv.total,
             Cell.str (fmtDateMDY parseMs (dateInputOf inv.issueDate) tz),
             Cell.str (fmtDateMDY parseMs (dateInputOf inv.dueDate) tz),
             Cell.str b.latestType, Cell.str b.latestDetail,
             Cell.str (latestDateCell parseMs b tz),
             Cell.str (joinedSorted b.types), Cell.str (joinedSorted b.details)])
    ∧ (∀ l : List String, List.Perm (sortStrings l) l ∧ List.Sorted strLe (sortStrings l))
    ∧ (∀ (k : String) (b : PaymentBucket),
        (buildPaymentMap parseMs startMs endMs txns).lookup k = some b →
        b.types.Nodup ∧ b.details.Nodup) := by
  refine ⟨by simp [toPaymentTypeRows], ?_, ?_, ?_, ?_⟩
  · intro inv hp
    rw [jsOr_empty] at hp
    simp [paymentTypeRow, hp]
  · intro inv b hp
    rw [jsOr_empty] at hp
    simp [paymentTypeRow, hp]
  · intro l
    exact ⟨List.perm_insertionSort strLe l, List.sorted_insertionSort strLe l⟩
  · intro k b hlk
    exact foldl_bpmStep_bucketInv parseMs startMs endMs txns [] (by simp) (k, b)
      (lookup_mem _ k b hlk)

/-- A concrete bucket used in the C8 witness. -/
def bucketW : PaymentBucket := ⟨["card", "check"], ["#42"], some 5, "check", "#42"⟩

/-- A concrete payment map holding only invoice `inv-1`. -/
def pmapW : List (String × PaymentBucket) := [("inv-1", bucketW)]

/-- Witness for C8: the invoice with a bucket gets the bucket fields,
the invoice without one gets empty payment cells. -/
theorem toPaymentTypeRows_spec_witness :
    (pmapW.lookup (jsOr (invoiceBase.id) "") = none
      ∧ paymentTypeRow parseTable invoiceBase pmapW "UTC"
          = [Cell.str "", Cell.str "", Cell.str "INV-", Cell.str "",
             Cell.num 0, Cell.num 0, Cell.num 0, Cell.str "", Cell.str "",
             Cell.str "", Cell.str "", Cell.str "", Cell.str "", Cell.str ""])
    ∧ (pmapW.lookup (jsOr ({ invoiceBase with id := "inv-1" } : Invoice).id "") = some bucketW
      ∧ paymentTypeRow parseTable { invoiceBase with id := "inv-1" } pmapW "UTC"
          = [Cell.str (jsOr ({ invoiceBase with id := "inv-1" } : Invoice).id ""),
             Cell.str "", Cell.str "INV-", Cell.str "",
             Cell.num 0, Cell.num 0, Cell.num 0, Cell.str "", Cell.str "",
             Cell.str bucketW.latestType, Cell.str bucketW.latestDetail,
             Cell.str (latestDateCell parseTable bucketW "UTC"),
             Cell.str (joinedSorted bucketW.types),
             Cell.str (joinedSorted bucketW.details)]) := by
  constructor
  · refine ⟨by decide, ?_⟩
    have hrow := ((toPaymentTypeRows_spec parseTable [] pmapW "UTC" 0 10 []).2.1
      invoiceBase (by decide))
    rw [hrow]
    simp [invoiceBase, jsOr, fmtDateMDY, dateInputOf]
  · refine ⟨by decide, ?_⟩
    have hrow := ((toPaymentTypeRows_spec parseTable [] pmapW "UTC" 0 10 []).2.2.1
      { invoiceBase with id := "inv-1" } bucketW (by decide))
    rw [hrow]
    simp [invoiceBase, jsOr, fmtDateMDY, dateInputOf]

/-- The flat `InvoiceRow` projection of the sync pipeline. -/
structure InvoiceRow where
  invoice_id : String
  invoice_number : String
  invoice_display : String
  invoice_status : String
  amount_paid : Int
  amount_due : Int
  amount_total : Int
  issue_date : String
  due_date : String
  live_mode : String
  alt_type : String
  alt_id : String
  company_id : String
  contact_id : String
  owner_id : String
  owner_name : String
  contact_name : String
  contact_email : String
  contact_phone : String
  contact_addr1 : String
  contact_city : String
  contact_state : String
  contact_postal : String
deriving Repr, DecidableEq

/-- An address field of the embedded contact snapshot with the `""`
fallbacks of `invoiceToRow`. -/
def addrField (inv : Invoice) (f : Address → String) : String :=
  match inv.contactDetails with
  | some cd =>
    match cd.address with
    | some a => jsOr (f a) ""
    | none => ""
  | none => ""

/-- A contact field of the embedded contact snapshot with the `""`
fallback of `invoiceToRow`. -/
def contactField (inv : Invoice) (f : ContactDetails → String) : String :=
  match inv.contactDetails with
  | some cd => jsOr (f cd) ""
  | none => ""

/-- `InvoiceService.invoiceToRow`: the flat projection of one invoice,
joined with its owner through the invoice's embedded contact id (the
empty `Owner` when the invoice has no contact id or the map has no
entry). -/
def invoiceToRow (parseMs : String → Option Int) (inv : Invoice)
    (ownerMap : List (String × Owner)) (timezone : String) : InvoiceRow :=
  let contactId := match inv.contactDetails with | some cd => cd.id | none => ""
  let owner : Owner :=
    if contactId ≠ "" then
      match ownerMap.lookup contactId with
      | some o => o
      | none => ⟨"", ""⟩
    else ⟨"", ""⟩
  { invoice_id := jsOr inv.id ""
    invoice_number := jsOr inv.invoiceNumber ""
    invoice_display := jsOr inv.invoiceNumberPfx "INV-" ++ jsOr inv.invoiceNumber ""
    invoice_status := jsOr inv.status ""
    amount_paid := inv.amountPaid
    amount_due := inv.amountDue
    amount_total := inv.total
    issue_date := fmtDateMDY parseMs (dateInputOf inv.issueDate) timezone
    due_date := fmtDateMDY parseMs (dateInputOf inv.dueDate) timezone
    live_mode := if inv.liveMode then "true" else "false"
    alt_type := jsOr inv.altType ""
    alt_id := jsOr inv.altId ""
    company_id := jsOr inv.companyId ""
    contact_id := contactId
    owner_id := owner.ownerId
    owner_name := owner.ownerName
    contact_name := contactField inv (fun cd => cd.name)
    contact_email := contactField inv (fun cd => cd.email)
    contact_phone := contactField inv (fun cd => cd.phoneNo)
    contact_addr1 := addrField inv (fun a => a.addressLine1)
    contact_city := addrField inv (fun a => a.city)
    contact_state := addrField inv (fun a => a.state)
    contact_postal := addrField inv (fun a => a.postalCode) }

/-- `InvoiceService.transformToRows`: one row per invoice, in fetch
order. -/
def transformToRows (parseMs : String → Option Int) (invoices : List Invoice)
    (ownerMap : List (String × Owner)) (timezone : String) : List InvoiceRow :=
  invoices.map (fun inv => invoiceToRow parseMs inv ownerMap timezone)

/-- C9: both row transformations are order-preserving stable joins — the
output has exactly one row per input invoice and the row at every index
is built from the invoice at the same index. -/
theorem rows_order_preserving (parseMs : String → Option Int) (invs : List Invoice)
    (ownerMap : List (String × Owner)) (pmap : List (String × PaymentBucket))
    (tz : String) :
    (transformToRows parseMs invs ownerMap tz).length = invs.length
    ∧ (∀ i : Nat, (transformToRows parseMs invs ownerMap tz)[i]?
        = (invs[i]?).map (fun inv => invoiceToRow parseMs inv ownerMap tz))
    ∧ (toPaymentTypeRows parseMs invs pmap tz).length = invs.length
    ∧ (∀ i : Nat, (toPaymentTypeRows parseMs invs pmap tz)[i]?
        = (invs[i]?).map (fun inv => paymentTypeRow parseMs inv pmap tz)) := by
  refine ⟨by simp [transformToRows], fun i => ?_, by simp [toPaymentTypeRows], fun i => ?_⟩
  · simp [transformToRows, List.getElem?_map]
  · simp [toPaymentTypeRows, List.getElem?_map]

end CRM
